import Mathlib

/-!
Verification of the OmniCart enrichment + aggregation pipeline.

Shallow embedding of the two sibling implementations found in the repository:

* `src/pipeline/data_enricher.py` / `src/pipeline/data_analyzer.py`
  (namespaces `Pipeline` and `Analyzer` below), and
* `src/DataEnricher.py` / `src/DataAnalyzer.py`
  (namespace `Legacy` below).

Numbers are rationals (`ℚ`); a pandas `NaN` / Python `None` cell is `Option.none`.
A DataFrame is a list of rows; where column *presence* matters (the analyzer
adds missing columns in place) the frame also carries one boolean per expected
column.  Pandas behaviours that the embedding relies on are stated in the doc
comment of the definition that models them.
-/

namespace OmniCart

/-- Rounding of a rational to the nearest integer, halves to the even
neighbour.  This is the rounding used by `numpy`/`pandas` `.round` and by
Python `round` (banker's rounding). -/
def roundHalfEven (q : ℚ) : ℤ :=
  let f : ℤ := ⌊q⌋
  let r : ℚ := q - f
  if r < 1/2 then f
  else if 1/2 < r then f + 1
  else if f % 2 = 0 then f else f + 1

/-- Rounding to 2 decimal places, as in `round(x, 2)` / `Series.round(2)`. -/
def round2 (q : ℚ) : ℚ := (roundHalfEven (q * 100) : ℚ) / 100

/-- Value of a product's `rating` cell.  `none` models a missing / non-dict
value; otherwise it is the fakestore `{rate, count}` object, either key of
which may itself be absent. -/
structure RatingObj where
  rate : Option ℚ
  count : Option Int
deriving DecidableEq, Repr

/-- Quantity derived from a `rating` cell: `rating.count` when the cell is a
dict carrying a `count` key, else `0`.  Models both
`x.get('count') if isinstance(x, dict) and 'count' in x else 0`
(src/pipeline/data_enricher.py) and
`x.get('count', 0) if isinstance(x, dict) else 0` (src/DataEnricher.py),
which agree pointwise. -/
def quantityOf : Option RatingObj → Int
  | some r =>
    match r.count with
    | some c => c
    | none => 0
  | none => 0

/-- Row of the products DataFrame handed to the pipeline enricher (a
normalized product record per the repository's data model; every expected
column is present, nullable cells are `Option`). -/
structure ProductRecord where
  id : Int
  title : String
  price : ℚ
  category : String
  userId : Option Int
  rating : Option RatingObj
deriving DecidableEq, Repr

/-- Row of the users DataFrame handed to the pipeline enricher.  The enricher
first inserts any of the columns `username`, `email`, `first_name`,
`last_name` that are absent, filled with `None`; an absent column is therefore
indistinguishable from an all-`none` column and each field is an `Option`. -/
structure UserRecord where
  id : Int
  username : Option String
  email : Option String
  first_name : Option String
  last_name : Option String
deriving DecidableEq, Repr

namespace Pipeline

/-- Row of the DataFrame returned by
`DataEnricher.enrich_product_data` (src/pipeline/data_enricher.py): the
product columns, the joined user columns (the user `id` lands in `id_seller`
via `suffixes=('', '_seller')`), the derived `quantity` and `revenue`. -/
structure EnrichedRow where
  id : Int
  title : String
  price : ℚ
  category : String
  userId : Option Int
  rating : Option RatingObj
  id_seller : Option Int
  username : Option String
  email : Option String
  first_name : Option String
  last_name : Option String
  quantity : Int
  revenue : ℚ
deriving DecidableEq, Repr

/-- Users matching a product's `userId` join key, in user-frame order.
`pd.merge(..., left_on='userId', right_on='id')` matches a row pair when the
keys compare equal; a null `userId` matches no integer user id. -/
def userMatches (users : List UserRecord) (uid : Option Int) : List UserRecord :=
  users.filter (fun u => uid == some u.id)

/-- Output rows a single product contributes to the left merge.  Pandas
`how='left'` keeps every left row: with no match it emits one row whose right
columns are `NaN`; with matches it emits one row per matching right row, in
right-frame order.  The derived columns follow src/pipeline/data_enricher.py:
`quantity` from the `rating` cell and `revenue = price * quantity`
(note: no rounding is applied there). -/
def joinRows (users : List UserRecord) (p : ProductRecord) : List EnrichedRow :=
  let q : Int := quantityOf p.rating
  let ms := userMatches users p.userId
  if ms.isEmpty then
    [{ id := p.id, title := p.title, price := p.price, category := p.category,
       userId := p.userId, rating := p.rating,
       id_seller := none, username := none, email := none,
       first_name := none, last_name := none,
       quantity := q, revenue := p.price * (q : ℚ) }]
  else
    ms.map (fun u =>
      { id := p.id, title := p.title, price := p.price, category := p.category,
        userId := p.userId, rating := p.rating,
        id_seller := some u.id, username := u.username, email := u.email,
        first_name := u.first_name, last_name := u.last_name,
        quantity := q, revenue := p.price * (q : ℚ) })

/-- Model of `DataEnricher.enrich_product_data` in
src/pipeline/data_enricher.py.  An empty product list becomes
`pd.DataFrame()` — a frame with *no columns* — and
`pd.merge(..., left_on='userId', ...)` then raises `KeyError: 'userId'`;
this is the `.error` branch.  A non-empty list of normalized product records
yields a frame with all product columns present, and the function returns the
left-merged rows with `quantity` and `revenue` appended. -/
def enrich_product_data (products : List ProductRecord) (users : List UserRecord) :
    Except String (List EnrichedRow) :=
  if products.isEmpty then .error "KeyError: userId"
  else .ok (products.flatMap (joinRows users))

end Pipeline

namespace Legacy

/-- Nested `name` object of a raw fakestore user (`{firstname, lastname}`);
`none` models a missing or non-dict `name` cell. -/
structure NameObj where
  firstname : String
  lastname : String
deriving DecidableEq, Repr

/-- Row of the users frame consumed by src/DataEnricher.py (raw users:
nested `name`, no flattened first/last name). -/
structure LegacyUser where
  id : Int
  username : Option String
  email : Option String
  name : Option NameObj
deriving DecidableEq, Repr

/-- Row of the products frame consumed by src/DataEnricher.py.  Its `price`
cell is passed through `pd.to_numeric(errors='coerce').fillna(0.0)`, so a
missing or non-numeric price is `none` here and coerces to `0`. -/
structure LegacyProduct where
  id : Int
  title : String
  price : Option ℚ
  category : String
  rating : Option RatingObj
deriving DecidableEq, Repr

/-- Coerced price: `pd.to_numeric(products_df['price'], errors='coerce').fillna(0.0)`. -/
def coercedPrice (p : LegacyProduct) : ℚ := p.price.getD 0

/-- Seller display name derived in src/DataEnricher.py:
`f"{name['firstname']} {name['lastname']}"` when the `name` cell is a dict,
else `"Unknown"`. -/
def sellerNameOf (u : LegacyUser) : String :=
  match u.name with
  | some n => n.firstname ++ " " ++ n.lastname
  | none => "Unknown"

/-- Row of the frame returned by `DataEnricher.enrich_product_data`
(src/DataEnricher.py): product columns with coerced price, the randomly
assigned `seller_id`, the joined `id`/`seller_name`/`email` user columns, and
`quantity` / `revenue` (this variant rounds revenue to 2 decimals). -/
structure LegacyRow where
  id : Int
  title : String
  price : ℚ
  category : String
  rating : Option RatingObj
  seller_id : Option Int
  id_seller : Option Int
  seller_name : Option String
  email : Option String
  quantity : Int
  revenue : ℚ
deriving DecidableEq, Repr

/-- Random seller id for one product: `np.random.choice(users_df['id'].values)`
picks some position in the users frame.  The embedding threads the RNG
explicitly: `draw` is the position the RNG chose, reduced modulo the number of
users so that every natural number denotes a valid pick. -/
def chosenSellerId (users : List LegacyUser) (draw : Nat) : Option Int :=
  (users[draw % users.length]?).map (·.id)

/-- Joined rows one product contributes in the legacy merge (left merge of the
products frame against `users_df[['id','seller_name','email']]` on
`seller_id == id`, same pandas left-merge semantics as in the pipeline
variant). -/
def legacyJoinRows (users : List LegacyUser) (sid : Option Int)
    (p : LegacyProduct) : List LegacyRow :=
  let q : Int := quantityOf p.rating
  let pr : ℚ := coercedPrice p
  let ms := users.filter (fun u => sid == some u.id)
  if ms.isEmpty then
    [{ id := p.id, title := p.title, price := pr, category := p.category,
       rating := p.rating, seller_id := sid, id_seller := none,
       seller_name := none, email := none,
       quantity := q, revenue := round2 (pr * (q : ℚ)) }]
  else
    ms.map (fun u =>
      { id := p.id, title := p.title, price := pr, category := p.category,
        rating := p.rating, seller_id := sid, id_seller := some u.id,
        seller_name := some (sellerNameOf u), email := u.email,
        quantity := q, revenue := round2 (pr * (q : ℚ)) })

/-- Model of `DataEnricher.enrich_product_data` in src/DataEnricher.py.
Empty products short-circuit to an empty frame.  With a non-empty users frame
the function assigns each product a *random* seller id
(`np.random.choice(users_df['id'].values, size=len(products_df))`) — the RNG
outcomes enter the model as the `draws` list, one drawn position per product
(`draws.getD k 0`: position for the `k`-th product) — and then left-merges on
that id.  With an empty users frame it instead sets
`seller_name = 'Unknown Seller'` and `email = None` on every row.
`revenue = (price * quantity).round(2)`. -/
def enrich_product_data (products : List LegacyProduct) (users : List LegacyUser)
    (draws : List Nat) : List LegacyRow :=
  if products.isEmpty then []
  else if users.isEmpty then
    products.map (fun p =>
      let q : Int := quantityOf p.rating
      let pr : ℚ := coercedPrice p
      { id := p.id, title := p.title, price := pr, category := p.category,
        rating := p.rating, seller_id := none, id_seller := none,
        seller_name := some "Unknown Seller", email := none,
        quantity := q, revenue := round2 (pr * (q : ℚ)) })
  else
    (products.enum).flatMap (fun pk =>
      legacyJoinRows users (chosenSellerId users (draws.getD pk.1 0)) pk.2)

end Legacy

namespace Analyzer

/-- Row of the DataFrame handed to `DataAnalyzer.analyze_seller_performance`
(src/pipeline/data_analyzer.py).  `rating` here is the per-row numeric rating
(as in the repository's analyzer test fixtures), `none` modelling `NaN`. -/
structure AnalyzerRow where
  username : Option String
  price : ℚ
  revenue : ℚ
  category : String
  title : String
  rating : Option ℚ
  quantity : Int
deriving DecidableEq, Repr

/-- DataFrame for the analyzer: the rows together with one flag per expected
column recording whether that column is present.  When a flag is `false` the
corresponding per-row values are phantom (the code never reads an absent
column; it first creates it, filled with a default). -/
structure Df where
  rows : List AnalyzerRow
  hasUsername : Bool
  hasPrice : Bool
  hasRevenue : Bool
  hasCategory : Bool
  hasTitle : Bool
  hasRating : Bool
  hasQuantity : Bool
deriving DecidableEq, Repr

/-- Model of the missing-column loop of `analyze_seller_performance`: for each
of `['username','price','revenue','category','title','rating','quantity']`
absent from the frame, `df[col] = default` is executed — `0.0` for
`price`/`revenue`/`rating`, `0` for `quantity` and the string `'Unknown'`
otherwise — creating the column on the *caller's* DataFrame (in-place
mutation, observable by the caller). -/
def fillRow (df : Df) (r : AnalyzerRow) : AnalyzerRow :=
  { username := if df.hasUsername then r.username else some "Unknown"
    price := if df.hasPrice then r.price else 0
    revenue := if df.hasRevenue then r.revenue else 0
    category := if df.hasCategory then r.category else "Unknown"
    title := if df.hasTitle then r.title else "Unknown"
    rating := if df.hasRating then r.rating else some 0
    quantity := if df.hasQuantity then r.quantity else 0 }

/-- Frame as the missing-column loop leaves it: every expected column now
present, rows defaulted by `fillRow`. -/
def fillMissing (df : Df) : Df :=
  { rows := df.rows.map (fillRow df)
    hasUsername := true, hasPrice := true, hasRevenue := true,
    hasCategory := true, hasTitle := true, hasRating := true,
    hasQuantity := true }

/-- Insertion step of a stable insertion sort parameterised by a boolean
comparison (used to model pandas key-sorted grouping and stable argsort). -/
def insertLe {α : Type} (le : α → α → Bool) (x : α) : List α → List α
  | [] => [x]
  | y :: ys => if le x y then x :: y :: ys else y :: insertLe le x ys

/-- Stable insertion sort by a boolean comparison: elements comparing equal
keep their input order. -/
def sortLe {α : Type} (le : α → α → Bool) : List α → List α
  | [] => []
  | x :: xs => insertLe le x (sortLe le xs)

/-- Comparison used for `groupby('username', dropna=False)` key ordering:
pandas sorts group keys ascending with the `NaN` key placed last. -/
def optStrLe (a b : Option String) : Bool :=
  match a, b with
  | none, none => true
  | none, some _ => false
  | some _, none => true
  | some x, some y => decide (x ≤ y)

/-- Distinct `username` group keys in the order `groupby('username',
dropna=False, sort=True)` iterates them: ascending, `NaN` last.  (`dedup`
keeps one occurrence per key; since the keys are then sorted, which occurrence
survives is irrelevant.) -/
def sellerKeys (rows : List AnalyzerRow) : List (Option String) :=
  sortLe optStrLe (rows.map (·.username)).dedup

/-- Rows of one seller group, in original frame order (pandas `groupby`
preserves intra-group order). -/
def sellerGroup (rows : List AnalyzerRow) (k : Option String) : List AnalyzerRow :=
  rows.filter (fun r => r.username == k)

/-- Group key as written into the result dict:
`if pd.isna(username): username = "Unknown Seller"`. -/
def sentinelKey : Option String → String
  | some s => s
  | none => "Unknown Seller"

/-- Distinct values in first-seen order, as `Series.unique().tolist()`. -/
def uniqueFirst {α : Type} [BEq α] (l : List α) : List α :=
  l.foldl (fun acc x => if acc.contains x then acc else acc ++ [x]) []

/-- Scan step of `Series.idxmax`: the running best row is replaced only when a
later row's revenue is *strictly* greater, so the first row attaining the
maximum wins. -/
def idxmaxFrom (best : AnalyzerRow) : List AnalyzerRow → AnalyzerRow
  | [] => best
  | r :: rs => idxmaxFrom (if best.revenue < r.revenue then r else best) rs

/-- Title of the group's top product:
`seller_data.loc[seller_data['revenue'].idxmax(), 'title']` — the title of the
first row of the group (in original order) attaining the maximum revenue.
Groups are never empty (a key only exists because some row carries it);
the `[]` case is unreachable and returns a dummy. -/
def topProductOf : List AnalyzerRow → String
  | [] => ""
  | r :: rs => (idxmaxFrom r rs).title

/-- Metrics dict built per seller in `analyze_seller_performance`
(the nested `performance_metrics` sub-dict is flattened into the
`avg_rating` / `total_quantity_sold` fields). -/
structure SellerMetrics where
  total_revenue : ℚ
  product_count : Int
  avg_price : ℚ
  categories : List String
  top_product : String
  avg_rating : Option ℚ
  total_quantity_sold : Int
deriving DecidableEq, Repr

/-- Per-group metrics, following src/pipeline/data_analyzer.py line by line.
`Series.mean()` skips `NaN` (`skipna=True` default): `avg_rating` divides by
the number of *non-null* ratings and is itself `NaN` (`none`) when every
rating in the group is null; `round(float('nan'), 2)` stays `NaN`.
`avg_price` never meets a `NaN` in this model, so its mean divides by the
group size. -/
def mkMetrics (g : List AnalyzerRow) : SellerMetrics :=
  let ratings := g.filterMap (·.rating)
  { total_revenue := round2 (g.map (·.revenue)).sum
    product_count := g.length
    avg_price := round2 ((g.map (·.price)).sum / (g.length : ℚ))
    categories := uniqueFirst (g.map (·.category))
    top_product := topProductOf g
    avg_rating :=
      if ratings.isEmpty then none
      else some (round2 (ratings.sum / (ratings.length : ℚ)))
    total_quantity_sold := (g.map (·.quantity)).sum }

/-- Model of `DataAnalyzer.analyze_seller_performance`
(src/pipeline/data_analyzer.py).  Returns the result dict as an association
list in insertion order *and* the DataFrame as the caller observes it after
the call (the missing-column loop mutates the argument; an empty frame
returns before that loop runs).  Python dict insertion overwrites on key
collision (a literal `"Unknown Seller"` username colliding with the `NaN`
group); the association list keeps both entries, the later one being the
dict's final value. -/
def analyze_seller_performance (df : Df) : List (String × SellerMetrics) × Df :=
  if df.rows.isEmpty then ([], df)
  else
    let dfFilled := fillMissing df
    ((sellerKeys dfFilled.rows).map
        (fun k => (sentinelKey k, mkMetrics (sellerGroup dfFilled.rows k))),
      dfFilled)

/-- Summary dict built by `DataAnalyzer.get_overall_summary`;
`top_categories` keeps the `.to_dict()` insertion order as an association
list. -/
structure Summary where
  total_revenue : ℚ
  total_products : Nat
  active_sellers : Nat
  top_categories : List (String × ℚ)
deriving DecidableEq, Repr

/-- Summed revenue of one category: `df.groupby('category')['revenue'].sum()`
evaluated at `c`. -/
def catRevenue (rows : List AnalyzerRow) (c : String) : ℚ :=
  ((rows.filter (fun r => r.category == c)).map (·.revenue)).sum

/-- Distinct categories in the ascending order `groupby('category')` (with
default `sort=True`) emits them. -/
def catKeys (rows : List AnalyzerRow) : List String :=
  sortLe (fun a b => decide (a ≤ b)) (rows.map (·.category)).dedup

/-- Series `groupby('category')['revenue'].sum()`: summed revenue per
category, keys in ascending order (`groupby` default `sort=True`). -/
def catSums (rows : List AnalyzerRow) : List (String × ℚ) :=
  (catKeys rows).map fun c => (c, catRevenue rows c)

/-- Model of the `top_categories` expression:
`groupby('category')['revenue'].sum().sort_values(ascending=False).head(3).to_dict()`
with the final 2-decimal rounding of the dict comprehension.
`Series.sort_values(ascending=False)` argsorts ascending and *reverses* the
result (`nargsort`), so ties end up in reverse key order; numpy's argsort is
stable on short arrays (its quicksort switches to insertion sort below 16
elements), which the stable `sortLe` models. -/
def topCategories (rows : List AnalyzerRow) : List (String × ℚ) :=
  (((sortLe (fun a b => decide (a.2 ≤ b.2)) (catSums rows)).reverse).take 3).map
    (fun p => (p.1, round2 p.2))

/-- Model of `DataAnalyzer.get_overall_summary`
(src/pipeline/data_analyzer.py).  An empty frame returns the empty dict
(`.ok none`).  Unlike `analyze_seller_performance` this function has no
missing-column loop: reading `df['revenue']`, `df['username']` or
`df['category']` on a frame lacking that column raises `KeyError`.
`Series.nunique()` counts distinct non-null values. -/
def get_overall_summary (df : Df) : Except String (Option Summary) :=
  if df.rows.isEmpty then .ok none
  else if !df.hasRevenue then .error "KeyError: revenue"
  else if !df.hasUsername then .error "KeyError: username"
  else if !df.hasCategory then .error "KeyError: category"
  else .ok (some
    { total_revenue := round2 (df.rows.map (·.revenue)).sum
      total_products := df.rows.length
      active_sellers := (df.rows.filterMap (·.username)).dedup.length
      top_categories := topCategories df.rows })

end Analyzer

/-! Concrete records used to evaluate the theorems below, drawn from the
spec's test scenario and the repository's test fixtures. -/

/-- Product 1 of the spec's scenario (price 10, seller 1, rating count 10). -/
def prodA : ProductRecord :=
  { id := 1, title := "Test Product 1", price := 10, category := "electronics",
    userId := some 1, rating := some { rate := some (9/2), count := some 10 } }

/-- Product 2 of the spec's scenario (price 20, seller 2, rating count 2). -/
def prodB : ProductRecord :=
  { id := 2, title := "Test Product 2", price := 20, category := "clothing",
    userId := some 2, rating := some { rate := some 3, count := some 2 } }

/-- Product whose exact revenue `0.001 * 1` is not representable with 2
decimal places. -/
def prodTiny : ProductRecord :=
  { id := 3, title := "Tiny", price := 1/1000, category := "misc",
    userId := none, rating := some { rate := none, count := some 1 } }

/-- User `alice` with id 1. -/
def userA : UserRecord :=
  { id := 1, username := some "alice", email := some "alice@example.com",
    first_name := some "Alice", last_name := some "A" }

/-- Second user that also carries id 1 (duplicate join key). -/
def userA2 : UserRecord :=
  { id := 1, username := some "alice2", email := none,
    first_name := none, last_name := none }

/-- User `bob` with id 2. -/
def userB : UserRecord :=
  { id := 2, username := some "bob", email := some "bob@example.com",
    first_name := some "Bob", last_name := some "B" }

/-- Legacy-variant product (price 2, rating count 3). -/
def lprodA : Legacy.LegacyProduct :=
  { id := 1, title := "Prod", price := some 2, category := "cat",
    rating := some { rate := none, count := some 3 } }

/-- Legacy-variant user with a nested name object. -/
def luA : Legacy.LegacyUser :=
  { id := 1, username := some "alice", email := some "alice@example.com",
    name := some { firstname := "Alice", lastname := "Smith" } }

/-- Legacy-variant user without a name object. -/
def luB : Legacy.LegacyUser :=
  { id := 2, username := some "bob", email := some "bob@example.com",
    name := none }

/-- Analyzer row fixture helper. -/
def mkARow (u : Option String) (pr rev : ℚ) (c t : String) (ra : Option ℚ)
    (q : Int) : Analyzer.AnalyzerRow :=
  { username := u, price := pr, revenue := rev, category := c, title := t,
    rating := ra, quantity := q }

/-- Analyzer frame with all expected columns present. -/
def mkADf (rows : List Analyzer.AnalyzerRow) : Analyzer.Df :=
  { rows := rows, hasUsername := true, hasPrice := true, hasRevenue := true,
    hasCategory := true, hasTitle := true, hasRating := true,
    hasQuantity := true }

/-- Frame whose `username` column is entirely absent. -/
def dfNoUsername : Analyzer.Df :=
  { rows := [mkARow (some "ghost") 1 1 "c" "t" none 1],
    hasUsername := false, hasPrice := true, hasRevenue := true,
    hasCategory := true, hasTitle := true, hasRating := true,
    hasQuantity := true }

/-- Frame with a null-username row next to a named one. -/
def dfNullName : Analyzer.Df :=
  mkADf [mkARow none 1 1 "c" "t" none 1, mkARow (some "a") 1 1 "c" "t" none 1]

/-- One seller, three rows, the maximal revenue attained twice ("t2" first). -/
def dfTopTie : Analyzer.Df :=
  mkADf [mkARow (some "a") 1 5 "c" "t1" none 1,
    mkARow (some "a") 1 7 "c" "t2" none 1,
    mkARow (some "a") 1 7 "c" "t3" none 1]

/-- One seller, one rating 4 and one NaN rating. -/
def dfNaNRating : Analyzer.Df :=
  mkADf [mkARow (some "a") 1 1 "c" "t" (some 4) 1,
    mkARow (some "a") 1 1 "c" "t" none 1]

/-- Frame whose `category` column is entirely absent. -/
def dfNoCategory : Analyzer.Df :=
  { rows := [mkARow (some "a") 1 1 "c" "t" none 1],
    hasUsername := true, hasPrice := true, hasRevenue := true,
    hasCategory := false, hasTitle := true, hasRating := true,
    hasQuantity := true }

/-- Summary the analyzer computes for `dfNullName`. -/
def sumNullName : Analyzer.Summary :=
  { total_revenue := 2, total_products := 2, active_sellers := 1,
    top_categories := [("c", 2)] }

/-- Two categories `"a"` and `"b"` with tied summed revenue 1 each. -/
def dfCatTie : Analyzer.Df :=
  mkADf [mkARow (some "u") 1 1 "a" "t" none 1,
    mkARow (some "u") 1 1 "b" "t" none 1]

/-! Helper lemmas about the pipeline join. -/

/-- With pairwise-distinct user ids, at most one user matches a join key. -/
theorem userMatches_length_le_one (users : List UserRecord)
    (hnd : (users.map (·.id)).Nodup) (uid : Option Int) :
    (Pipeline.userMatches users uid).length ≤ 1 := by
  induction users with
  | nil => simp [Pipeline.userMatches]
  | cons u us ih =>
    simp only [List.map_cons, List.nodup_cons] at hnd
    by_cases h : uid == some u.id
    · have hrest : Pipeline.userMatches us uid = [] := by
        rw [Pipeline.userMatches, List.filter_eq_nil_iff]
        intro v hv hvmatch
        have h1 : uid = some u.id := eq_of_beq h
        have h2 : uid = some v.id := eq_of_beq hvmatch
        have : u.id = v.id := by
          rw [h1] at h2; exact Option.some.inj h2
        exact hnd.1 (this ▸ List.mem_map_of_mem (·.id) hv)
      rw [Pipeline.userMatches] at hrest ⊢
      simp [List.filter_cons, h, hrest]
    · simpa [Pipeline.userMatches, List.filter_cons, h] using ih hnd.2

/-- With pairwise-distinct user ids every product contributes exactly one
merged row. -/
theorem length_joinRows (users : List UserRecord)
    (hnd : (users.map (·.id)).Nodup) (p : ProductRecord) :
    (Pipeline.joinRows users p).length = 1 := by
  rw [Pipeline.joinRows]
  by_cases h : (Pipeline.userMatches users p.userId).isEmpty
  · simp [h]
  · have h1 := userMatches_length_le_one users hnd p.userId
    have h2 : (Pipeline.userMatches users p.userId).length ≠ 0 := by
      simpa [List.isEmpty_iff, List.length_eq_zero] using h
    simp only [h, if_false, Bool.false_eq_true, List.length_map]
    omega

/-- Sum of ones over a list counts its length. -/
theorem sum_map_ones {α : Type} (l : List α) :
    (l.map fun _ => (1 : Nat)).sum = l.length := by
  induction l <;> simp [*, Nat.add_comm]

namespace Analyzer

/-! Facts about the stable insertion sort modelling pandas sorting. -/

/-- Inserting just adds the element, up to permutation. -/
theorem insertLe_perm {α : Type} (le : α → α → Bool) (x : α) (l : List α) :
    (insertLe le x l).Perm (x :: l) := by
  induction l with
  | nil => exact List.Perm.refl _
  | cons y ys ih =>
    rw [insertLe]
    by_cases h : le x y
    · rw [if_pos h]
    · rw [if_neg h]
      exact (ih.cons y).trans (List.Perm.swap x y ys)

/-- Sorting permutes the input. -/
theorem sortLe_perm {α : Type} (le : α → α → Bool) (l : List α) :
    (sortLe le l).Perm l := by
  induction l with
  | nil => exact List.Perm.refl _
  | cons x xs ih =>
    rw [sortLe]
    exact (insertLe_perm le x (sortLe le xs)).trans (ih.cons x)

/-- Membership is preserved by sorting. -/
theorem mem_sortLe {α : Type} {le : α → α → Bool} {a : α} {l : List α} :
    a ∈ sortLe le l ↔ a ∈ l :=
  (sortLe_perm le l).mem_iff

/-- Inserting into a sorted list keeps it sorted, for a total transitive
comparison. -/
theorem pairwise_insertLe {α : Type} {le : α → α → Bool}
    (htot : ∀ a b, le a b = true ∨ le b a = true)
    (htr : ∀ a b c, le a b = true → le b c = true → le a c = true)
    {x : α} {l : List α} (hl : l.Pairwise (fun a b => le a b = true)) :
    (insertLe le x l).Pairwise (fun a b => le a b = true) := by
  induction l with
  | nil => simp [insertLe]
  | cons y ys ih =>
    obtain ⟨hy, hys⟩ := List.pairwise_cons.mp hl
    rw [insertLe]
    by_cases h : le x y
    · rw [if_pos h]
      refine List.Pairwise.cons ?_ hl
      intro z hz
      rcases List.mem_cons.mp hz with hz | hz
      · rw [hz]; exact h
      · exact htr x y z h (hy z hz)
    · rw [if_neg h]
      have hyx : le y x = true := (htot x y).resolve_left (by simpa using h)
      refine List.Pairwise.cons ?_ (ih hys)
      intro z hz
      rcases List.mem_cons.mp ((insertLe_perm le x ys).mem_iff.mp hz) with hz | hz
      · rw [hz]; exact hyx
      · exact hy z hz

/-- Sorting sorts, for a total transitive comparison. -/
theorem pairwise_sortLe {α : Type} {le : α → α → Bool}
    (htot : ∀ a b, le a b = true ∨ le b a = true)
    (htr : ∀ a b c, le a b = true → le b c = true → le a c = true)
    (l : List α) : (sortLe le l).Pairwise (fun a b => le a b = true) := by
  induction l with
  | nil => simp [sortLe]
  | cons x xs ih => exact pairwise_insertLe htot htr ih

/-- Stability of the value-ascending sort used for `top_categories`: on a
list of (category, revenue) pairs with strictly increasing category names,
inserting a pair whose name precedes all others produces a list sorted by
(revenue, then name) lexicographically. -/
theorem pairwise_lex_insertLe (x : String × ℚ) (l : List (String × ℚ))
    (hl : l.Pairwise (fun a b => a.2 < b.2 ∨ (a.2 = b.2 ∧ a.1 < b.1)))
    (hx : ∀ y ∈ l, x.1 < y.1) :
    (insertLe (fun a b => decide (a.2 ≤ b.2)) x l).Pairwise
      (fun a b => a.2 < b.2 ∨ (a.2 = b.2 ∧ a.1 < b.1)) := by
  induction l with
  | nil => simp [insertLe]
  | cons y ys ih =>
    obtain ⟨hy, hys⟩ := List.pairwise_cons.mp hl
    rw [insertLe]
    by_cases h : x.2 ≤ y.2
    · rw [if_pos (by simpa using h)]
      refine List.Pairwise.cons ?_ hl
      intro z hz
      rcases List.mem_cons.mp hz with hz | hz
      · rw [hz]
        rcases lt_or_eq_of_le h with h2 | h2
        · exact Or.inl h2
        · exact Or.inr ⟨h2, hx y (List.mem_cons_self y ys)⟩
      · have hyz : x.2 ≤ z.2 := by
          rcases hy z hz with h2 | h2
          · exact le_trans h (le_of_lt h2)
          · exact le_trans h (le_of_eq h2.1)
        rcases lt_or_eq_of_le hyz with h2 | h2
        · exact Or.inl h2
        · exact Or.inr ⟨h2, hx z (List.mem_cons_of_mem y hz)⟩
    · rw [if_neg (by simpa using h)]
      refine List.Pairwise.cons ?_
        (ih hys fun z hz => hx z (List.mem_cons_of_mem y hz))
      intro z hz
      rcases List.mem_cons.mp ((insertLe_perm _ x ys).mem_iff.mp hz) with hz | hz
      · rw [hz]; exact Or.inl (lt_of_not_le h)
      · exact hy z hz

/-- The value-ascending sort of a name-ascending list is lexicographically
sorted by (revenue, then name). -/
theorem pairwise_lex_sortLe (l : List (String × ℚ))
    (hl : l.Pairwise (fun a b => a.1 < b.1)) :
    (sortLe (fun a b => decide (a.2 ≤ b.2)) l).Pairwise
      (fun a b => a.2 < b.2 ∨ (a.2 = b.2 ∧ a.1 < b.1)) := by
  induction l with
  | nil => simp [sortLe]
  | cons x xs ih =>
    obtain ⟨hx, hxs⟩ := List.pairwise_cons.mp hl
    rw [sortLe]
    exact pairwise_lex_insertLe x (sortLe _ xs) (ih hxs)
      fun y hy => hx y (mem_sortLe.mp hy)

/-! Facts about the `idxmax` scan. -/

/-- The scanned row attains the maximum revenue of the candidates. -/
theorem idxmaxFrom_is_max (l : List AnalyzerRow) (x : AnalyzerRow) :
    ∀ y ∈ x :: l, y.revenue ≤ (idxmaxFrom x l).revenue := by
  induction l generalizing x with
  | nil =>
    intro y hy
    rw [List.mem_singleton] at hy
    subst hy
    exact le_refl _
  | cons r rs ih =>
    intro y hy
    rw [idxmaxFrom]
    have hx2 : x.revenue ≤ (if x.revenue < r.revenue then r else x).revenue := by
      split
      · next h => exact le_of_lt h
      · exact le_refl _
    have hr2 : r.revenue ≤ (if x.revenue < r.revenue then r else x).revenue := by
      split
      · exact le_refl _
      · next h => exact le_of_not_lt h
    have hhead := ih (if x.revenue < r.revenue then r else x)
      _ (List.mem_cons_self _ rs)
    rcases List.mem_cons.mp hy with hy | hy
    · rw [hy]; exact le_trans hx2 hhead
    · rcases List.mem_cons.mp hy with hy2 | hy2
      · rw [hy2]; exact le_trans hr2 hhead
      · exact ih _ y (List.mem_cons_of_mem _ hy2)

/-- Every candidate strictly before the scanned row has strictly smaller
revenue: the scan keeps the *first* maximum. -/
theorem idxmaxFrom_first (l : List AnalyzerRow) (x : AnalyzerRow) :
    ∃ l₁ l₂, x :: l = l₁ ++ idxmaxFrom x l :: l₂ ∧
      ∀ y ∈ l₁, y.revenue < (idxmaxFrom x l).revenue := by
  induction l generalizing x with
  | nil => exact ⟨[], [], rfl, by simp⟩
  | cons r rs ih =>
    rw [idxmaxFrom]
    by_cases h : x.revenue < r.revenue
    · rw [if_pos h]
      obtain ⟨l₁, l₂, heq, hlt⟩ := ih r
      refine ⟨x :: l₁, l₂, by rw [List.cons_append, ← heq], ?_⟩
      intro y hy
      rcases List.mem_cons.mp hy with hy | hy
      · subst hy
        exact lt_of_lt_of_le h
          (idxmaxFrom_is_max rs r r (List.mem_cons_self r rs))
      · exact hlt y hy
    · rw [if_neg h]
      obtain ⟨l₁, l₂, heq, hlt⟩ := ih x
      cases l₁ with
      | nil =>
        rw [List.nil_append] at heq
        injection heq with h1 h2
        exact ⟨[], r :: rs, by rw [List.nil_append, ← h1], by simp⟩
      | cons a l₁ =>
        rw [List.cons_append] at heq
        injection heq with h1 h2
        subst h1
        have hxlt : x.revenue < (idxmaxFrom x rs).revenue :=
          hlt x (List.mem_cons_self x l₁)
        refine ⟨x :: r :: l₁, l₂, ?_, ?_⟩
        · rw [show x :: r :: l₁ ++ idxmaxFrom x rs :: l₂ =
            x :: r :: (l₁ ++ idxmaxFrom x rs :: l₂) from rfl, ← h2]
        · intro y hy
          rcases List.mem_cons.mp hy with hy | hy
          · rw [hy]; exact hxlt
          · rcases List.mem_cons.mp hy with hy2 | hy2
            · rw [hy2]; exact lt_of_le_of_lt (le_of_not_lt h) hxlt
            · exact hlt y (List.mem_cons_of_mem x hy2)

/-- Generic fact: `find?` lands on a designated passing element when
everything before it fails. -/
theorem find?_prefix_fails {α : Type} {p : α → Bool} (l₁ l₂ : List α) (b : α)
    (h₁ : ∀ y ∈ l₁, p y = false) (hb : p b = true) :
    ((l₁ ++ b :: l₂).find? p) = some b := by
  induction l₁ with
  | nil => simp [List.find?_cons_of_pos, hb]
  | cons a l₁ ih =>
    rw [List.cons_append,
      List.find?_cons_of_neg _ (by simp [h₁ a (List.mem_cons_self a l₁)])]
    exact ih fun y hy => h₁ y (List.mem_cons_of_mem a hy)

/-- The group's `top_product` is the title of the *first* row attaining the
group's maximum revenue: the row `find?` locates with the "is a maximum"
predicate. -/
theorem topProduct_first_max (x : AnalyzerRow) (l : List AnalyzerRow) :
    ∃ b, ((x :: l).find?
        (fun r => decide (∀ y ∈ x :: l, y.revenue ≤ r.revenue))) = some b ∧
      topProductOf (x :: l) = b.title ∧
      ∀ y ∈ x :: l, y.revenue ≤ b.revenue := by
  obtain ⟨l₁, l₂, heq, hlt⟩ := idxmaxFrom_first l x
  have hmax := idxmaxFrom_is_max l x
  refine ⟨idxmaxFrom x l, ?_, rfl, hmax⟩
  have hBmem : idxmaxFrom x l ∈ x :: l := by
    rw [heq]
    exact List.mem_append_right l₁ (List.mem_cons_self _ l₂)
  have hfail : ∀ y ∈ l₁,
      (fun r => decide (∀ z ∈ x :: l, z.revenue ≤ r.revenue)) y = false := by
    intro y hy
    simp only [decide_eq_false_iff_not]
    intro hall
    exact absurd (hall _ hBmem) (not_le.mpr (hlt y hy))
  have hpass :
      (fun r => decide (∀ z ∈ x :: l, z.revenue ≤ r.revenue))
        (idxmaxFrom x l) = true := by
    simpa using hmax
  calc (x :: l).find? (fun r => decide (∀ z ∈ x :: l, z.revenue ≤ r.revenue))
      = (l₁ ++ idxmaxFrom x l :: l₂).find?
          (fun r => decide (∀ z ∈ x :: l, z.revenue ≤ r.revenue)) := by
        rw [← heq]
    _ = some (idxmaxFrom x l) := find?_prefix_fails l₁ l₂ _ hfail hpass

end Analyzer

/-- C1 (counterexample).  The claim quantifies over *every* user sequence,
but a pandas left merge emits one output row per matching right row: a single
product joined against two users sharing id 1 yields 2 rows, not 1.  So the
output row count can exceed the input product row count. -/
theorem enrich_duplicates_row_on_duplicate_user_ids :
    (Pipeline.enrich_product_data [prodA] [userA, userA2]).map List.length =
        Except.ok 2 ∧
      ([prodA] : List ProductRecord).length = 1 := by
  refine ⟨?_, rfl⟩
  simp +decide [Pipeline.enrich_product_data, Pipeline.joinRows,
    Pipeline.userMatches, prodA, userA, userA2, Except.map]

/-- C1 (amended).  For every non-empty product sequence and every user
sequence *whose user ids are pairwise distinct*, `enrich_product_data`
returns exactly one output row per input product row. -/
theorem enrich_preserves_row_count (products : List ProductRecord)
    (users : List UserRecord) (hne : products ≠ [])
    (hnd : (users.map (·.id)).Nodup) :
    (Pipeline.enrich_product_data products users).map List.length =
      Except.ok products.length := by
  rw [Pipeline.enrich_product_data, if_neg (by simpa [List.isEmpty_iff] using hne)]
  have : (products.flatMap (Pipeline.joinRows users)).length = products.length := by
    rw [List.length_flatMap]
    calc (products.map fun p => (Pipeline.joinRows users p).length).sum
        = (products.map fun _ => 1).sum := by
          congr 1
          exact List.map_congr_left fun p _ => length_joinRows users hnd p
      _ = products.length := sum_map_ones products
  simp [Except.map, this]

/-- C1 (witness for the amended theorem): the spec scenario, two products and
two distinct users, gives exactly two enriched rows. -/
theorem enrich_preserves_row_count_example :
    (Pipeline.enrich_product_data [prodA, prodB] [userA, userB]).map List.length =
      Except.ok ([prodA, prodB] : List ProductRecord).length :=
  enrich_preserves_row_count [prodA, prodB] [userA, userB]
    (by decide) (by decide)

/-- C2 (counterexample).  The pipeline enricher stores
`price * quantity` without rounding: with price `0.001` and quantity `1` the
stored revenue is `0.001`, while rounding to 2 decimal places gives `0`. -/
theorem pipeline_revenue_not_rounded :
    (Pipeline.enrich_product_data [prodTiny] []).map
        (List.map fun r => (r.revenue, round2 (r.price * (r.quantity : ℚ)))) =
      Except.ok [(1/1000, 0)] ∧ (1/1000 : ℚ) ≠ 0 := by
  constructor
  · simp +decide [Pipeline.enrich_product_data, Pipeline.joinRows,
      Pipeline.userMatches, prodTiny, Except.map, quantityOf]
    norm_num [round2, roundHalfEven]
  · norm_num

/-- C2 (amended).  Every row enriched by the pipeline variant
(src/pipeline/data_enricher.py) carries `revenue = price * quantity` exactly,
with no rounding; only the legacy variant (src/DataEnricher.py) rounds, with
`revenue = round(price * quantity, 2)` (banker's rounding). -/
theorem enrich_revenue_formula (products : List ProductRecord)
    (users : List UserRecord) (out : List Pipeline.EnrichedRow)
    (h : Pipeline.enrich_product_data products users = Except.ok out) :
    (∀ r ∈ out, r.revenue = r.price * (r.quantity : ℚ)) ∧
      ∀ (ps : List Legacy.LegacyProduct) (us : List Legacy.LegacyUser)
        (draws : List Nat), ∀ r ∈ Legacy.enrich_product_data ps us draws,
          r.revenue = round2 (r.price * (r.quantity : ℚ)) := by
  constructor
  · intro r hr
    rw [Pipeline.enrich_product_data] at h
    split at h
    · cases h
    · cases h
      obtain ⟨p, -, hrj⟩ := List.mem_flatMap.mp hr
      rw [Pipeline.joinRows] at hrj
      split at hrj
      · simp only [List.mem_singleton] at hrj
        subst hrj; rfl
      · obtain ⟨u, -, hru⟩ := List.mem_map.mp hrj
        subst hru; rfl
  · intro ps us draws r hr
    rw [Legacy.enrich_product_data] at hr
    split at hr
    · cases hr
    · split at hr
      · obtain ⟨p, -, hrp⟩ := List.mem_map.mp hr
        subst hrp; rfl
      · obtain ⟨pk, -, hrj⟩ := List.mem_flatMap.mp hr
        rw [Legacy.legacyJoinRows] at hrj
        split at hrj
        · simp only [List.mem_singleton] at hrj
          subst hrj; rfl
        · obtain ⟨u, -, hru⟩ := List.mem_map.mp hrj
          subst hru; rfl

/-- C2 (witness for the amended theorem): concrete rows of both variants
satisfy their respective revenue formulas. -/
theorem enrich_revenue_formula_example :
    (∀ r ∈ [{ id := 1, title := "Test Product 1", price := 10,
              category := "electronics", userId := some 1,
              rating := some { rate := some (9/2), count := some 10 },
              id_seller := some 1, username := some "alice",
              email := some "alice@example.com", first_name := some "Alice",
              last_name := some "A", quantity := 10,
              revenue := 100 : Pipeline.EnrichedRow }],
        r.revenue = r.price * (r.quantity : ℚ)) ∧
      ∀ (ps : List Legacy.LegacyProduct) (us : List Legacy.LegacyUser)
        (draws : List Nat), ∀ r ∈ Legacy.enrich_product_data ps us draws,
          r.revenue = round2 (r.price * (r.quantity : ℚ)) :=
  enrich_revenue_formula [prodA] [userA] _ (by
    simp +decide [Pipeline.enrich_product_data, Pipeline.joinRows,
      Pipeline.userMatches, prodA, userA, quantityOf]
    norm_num)

/-- C3 (code bug).  src/DataEnricher.py assigns each product a seller via
`np.random.choice` over the user ids; with two available users, the RNG
drawing position 0 versus position 1 attaches different sellers to the same
product, so two invocations on identical inputs can disagree.  The spec (§9)
states that seller assignment must be a deterministic join and that this
randomized behaviour is a bug to remove. -/
theorem legacy_enrich_depends_on_rng :
    Legacy.enrich_product_data [lprodA] [luA, luB] [0] ≠
      Legacy.enrich_product_data [lprodA] [luA, luB] [1] := by
  intro h
  have h2 := congrArg (List.map fun r => r.seller_name) h
  simp +decide [Legacy.enrich_product_data, Legacy.legacyJoinRows,
    Legacy.chosenSellerId, Legacy.sellerNameOf, Legacy.coercedPrice,
    lprodA, luA, luB, quantityOf] at h2

/-- C4 (counterexample).  Invoked on an empty products frame, the pipeline
variant raises instead of returning an empty result: `pd.DataFrame([])` has
no columns, so `pd.merge(..., left_on='userId', ...)` raises `KeyError`. -/
theorem pipeline_enrich_empty_products_raises :
    Pipeline.enrich_product_data [] [] = Except.error "KeyError: userId" := rfl

/-- C4 (amended).  On an empty product sequence the legacy variant
(src/DataEnricher.py, guarded by `if products_df.empty`) returns an empty
result for every user sequence without error, while the pipeline variant
(src/pipeline/data_enricher.py) raises a `KeyError` for every user
sequence. -/
theorem enrich_empty_products_behaviour :
    (∀ (users : List Legacy.LegacyUser) (draws : List Nat),
        Legacy.enrich_product_data [] users draws = []) ∧
      ∀ users : List UserRecord,
        Pipeline.enrich_product_data [] users = Except.error "KeyError: userId" :=
  ⟨fun _ _ => rfl, fun _ => rfl⟩

/-- C5 (confirmed).  Joining a non-empty product sequence against an empty
user sequence does not throw, keeps one row per product, and leaves every
seller field at its sentinel: all-null user columns in the pipeline variant,
`seller_name = "Unknown Seller"` and null email in the legacy variant. -/
theorem enrich_empty_users_sentinel (products : List ProductRecord)
    (lps : List Legacy.LegacyProduct) (hne : products ≠ []) :
    (∃ out, Pipeline.enrich_product_data products [] = Except.ok out ∧
        out.length = products.length ∧
        ∀ r ∈ out, r.username = none ∧ r.email = none ∧ r.first_name = none ∧
          r.last_name = none ∧ r.id_seller = none) ∧
      ∀ draws, ∀ r ∈ Legacy.enrich_product_data lps [] draws,
        r.seller_name = some "Unknown Seller" ∧ r.email = none := by
  constructor
  · refine ⟨products.flatMap (Pipeline.joinRows []), ?_, ?_, ?_⟩
    · rw [Pipeline.enrich_product_data,
        if_neg (by simpa [List.isEmpty_iff] using hne)]
    · rw [List.length_flatMap]
      have h1 : products.map (List.length ∘ Pipeline.joinRows []) =
          products.map fun _ => 1 :=
        List.map_congr_left fun p _ => by
          simp [Pipeline.joinRows, Pipeline.userMatches]
      rw [h1, sum_map_ones]
    · intro r hr
      obtain ⟨p, -, hrj⟩ := List.mem_flatMap.mp hr
      simp only [Pipeline.joinRows, Pipeline.userMatches, List.filter_nil,
        List.isEmpty_nil, if_true, List.mem_singleton] at hrj
      subst hrj
      exact ⟨rfl, rfl, rfl, rfl, rfl⟩
  · intro draws r hr
    rw [Legacy.enrich_product_data] at hr
    split at hr
    · cases hr
    · split at hr
      · obtain ⟨p, -, hrp⟩ := List.mem_map.mp hr
        subst hrp
        exact ⟨rfl, rfl⟩
      · next hcond => exact absurd rfl hcond

/-- C5 (witness): one product joined against no users yields a single row of
null seller fields, and the legacy variant yields the "Unknown Seller"
sentinel. -/
theorem enrich_empty_users_sentinel_example :
    (∃ out, Pipeline.enrich_product_data [prodA] [] = Except.ok out ∧
        out.length = ([prodA] : List ProductRecord).length ∧
        ∀ r ∈ out, r.username = none ∧ r.email = none ∧ r.first_name = none ∧
          r.last_name = none ∧ r.id_seller = none) ∧
      ∀ draws, ∀ r ∈ Legacy.enrich_product_data [lprodA] [] draws,
        r.seller_name = some "Unknown Seller" ∧ r.email = none :=
  enrich_empty_users_sentinel [prodA] [lprodA] (by decide)

namespace Analyzer

/-- The result dict contains, for every group key, the entry built from that
group. -/
theorem mem_analyze_of_key (df : Df) (hne : df.rows ≠ []) (k : Option String)
    (hk : k ∈ sellerKeys (fillMissing df).rows) :
    (sentinelKey k, mkMetrics (sellerGroup (fillMissing df).rows k)) ∈
      (analyze_seller_performance df).1 := by
  rw [analyze_seller_performance,
    if_neg (by simpa [List.isEmpty_iff] using hne)]
  exact List.mem_map_of_mem _ hk

/-- Group keys come from rows, so groups are never empty. -/
theorem sellerGroup_ne_nil (rows : List AnalyzerRow) (k : Option String)
    (hk : k ∈ sellerKeys rows) : sellerGroup rows k ≠ [] := by
  rw [sellerKeys, mem_sortLe, List.mem_dedup] at hk
  obtain ⟨r, hr, hrk⟩ := List.mem_map.mp hk
  intro hnil
  have hmem : r ∈ sellerGroup rows k :=
    List.mem_filter.mpr ⟨hr, by simp [hrk]⟩
  rw [hnil] at hmem
  exact absurd hmem (List.not_mem_nil r)

/-- With the `username` column present, filling missing columns does not
touch the usernames. -/
theorem fillMissing_username (df : Df) (h : df.hasUsername = true) :
    (fillMissing df).rows.map (·.username) = df.rows.map (·.username) := by
  rw [fillMissing, List.map_map]
  exact List.map_congr_left fun r _ => by simp [fillRow, h]

/-- C7 (confirmed).  For every seller group in the analyzer output, the
`top_product` metric is the title of the first row (in original input order)
attaining the group's maximum revenue: the row located by `find?` with the
"attains the maximum" predicate. -/
theorem analyze_top_product_first_max (df : Df) (k : Option String)
    (hne : df.rows ≠ []) (hk : k ∈ sellerKeys (fillMissing df).rows) :
    ∃ m b, (sentinelKey k, m) ∈ (analyze_seller_performance df).1 ∧
      (sellerGroup (fillMissing df).rows k).find?
        (fun r => decide (∀ y ∈ sellerGroup (fillMissing df).rows k,
          y.revenue ≤ r.revenue)) = some b ∧
      m.top_product = b.title ∧
      ∀ y ∈ sellerGroup (fillMissing df).rows k, y.revenue ≤ b.revenue := by
  obtain ⟨x, l, hgr⟩ :=
    List.exists_cons_of_ne_nil (sellerGroup_ne_nil (fillMissing df).rows k hk)
  obtain ⟨b, hfind, htop, hmax⟩ := topProduct_first_max x l
  refine ⟨mkMetrics (sellerGroup (fillMissing df).rows k), b,
    mem_analyze_of_key df hne k hk, ?_, ?_, ?_⟩
  · rw [hgr]; exact hfind
  · rw [hgr]; exact htop
  · rw [hgr]; exact hmax

/-- Rounding fixes zero. -/
theorem round2_zero : round2 0 = 0 := by
  norm_num [round2, roundHalfEven]

/-- A list summing zeros sums to zero. -/
theorem sum_map_zeros {α : Type} (l : List α) :
    (l.map fun _ => (0 : ℚ)).sum = 0 := by
  induction l <;> simp [*]

/-- A `filterMap` over all-`some 0` rating cells is a constant map. -/
theorem filterMap_rating_all_zero (g : List AnalyzerRow)
    (hall : ∀ r ∈ g, r.rating = some 0) :
    g.filterMap (·.rating) = g.map fun _ => (0 : ℚ) := by
  induction g with
  | nil => rfl
  | cons r rs ih =>
    simp only [List.filterMap_cons, hall r (List.mem_cons_self r rs),
      List.map_cons]
    rw [ih fun y hy => hall y (List.mem_cons_of_mem r hy)]

/-- Deduplicating a constant non-empty list yields a singleton. -/
theorem dedup_map_const {α β : Type} [DecidableEq β] (b : β) (l : List α)
    (h : l ≠ []) : (l.map fun _ => b).dedup = [b] := by
  induction l with
  | nil => exact absurd rfl h
  | cons a t ih =>
    cases t with
    | nil => simp
    | cons c t2 =>
      rw [List.map_cons, List.dedup_cons_of_mem (by simp)]
      exact ih (by simp)

/-- C9 (amended).  For every seller group, `avg_rating` is the 2-decimal
rounding of the mean over the group's *non-null* ratings — `Series.mean()`
skips `NaN`, so the divisor is the count of non-null ratings, not the group's
row count — and is `NaN` (`none`) when every rating of the group is null.
When the `rating` column is absent entirely, it is first filled with `0.0`,
so `avg_rating = 0` for every group. -/
theorem analyze_avg_rating_skipna (df : Df) (k : Option String)
    (hne : df.rows ≠ []) (hk : k ∈ sellerKeys (fillMissing df).rows) :
    ∃ m, (sentinelKey k, m) ∈ (analyze_seller_performance df).1 ∧
      m.avg_rating =
        (if ((sellerGroup (fillMissing df).rows k).filterMap (·.rating)).isEmpty
          then none
          else some (round2
            (((sellerGroup (fillMissing df).rows k).filterMap (·.rating)).sum /
              (((sellerGroup (fillMissing df).rows k).filterMap
                  (·.rating)).length : ℚ)))) ∧
      (df.hasRating = false → m.avg_rating = some 0) := by
  refine ⟨mkMetrics (sellerGroup (fillMissing df).rows k),
    mem_analyze_of_key df hne k hk, rfl, ?_⟩
  intro hrf
  have hall : ∀ r ∈ sellerGroup (fillMissing df).rows k, r.rating = some 0 := by
    intro r hr
    have hr2 : r ∈ (fillMissing df).rows := List.mem_of_mem_filter hr
    obtain ⟨r0, -, hr0⟩ := List.mem_map.mp hr2
    rw [← hr0]
    simp [fillRow, hrf]
  obtain ⟨x, l, hgr⟩ :=
    List.exists_cons_of_ne_nil (sellerGroup_ne_nil (fillMissing df).rows k hk)
  show (if ((sellerGroup (fillMissing df).rows k).filterMap (·.rating)).isEmpty
      then none
      else some (round2
        (((sellerGroup (fillMissing df).rows k).filterMap (·.rating)).sum /
          (((sellerGroup (fillMissing df).rows k).filterMap
              (·.rating)).length : ℚ)))) = some 0
  rw [filterMap_rating_all_zero _ hall, hgr]
  simp [sum_map_zeros, round2_zero]

/-- C9 (witness for the amended theorem): evaluated on the frame with one
rating 4 and one null rating for seller "a". -/
theorem analyze_avg_rating_skipna_example :
    ∃ m, (sentinelKey (some "a"), m) ∈
        (analyze_seller_performance dfNaNRating).1 ∧
      m.avg_rating =
        (if ((sellerGroup (fillMissing dfNaNRating).rows (some "a")).filterMap
              (·.rating)).isEmpty
          then none
          else some (round2
            (((sellerGroup (fillMissing dfNaNRating).rows (some "a")).filterMap
                (·.rating)).sum /
              (((sellerGroup (fillMissing dfNaNRating).rows (some "a")).filterMap
                  (·.rating)).length : ℚ)))) ∧
      (dfNaNRating.hasRating = false → m.avg_rating = some 0) :=
  analyze_avg_rating_skipna dfNaNRating (some "a") (by decide) (by decide)

/-- C9 (counterexample).  With ratings 4 and NaN in one group, the code's
`mean()` skips the NaN and returns 4; the claim's convention (NaN replaced by
0, divisor = full row count 2) would give 2. -/
theorem analyze_avg_rating_not_full_count :
    (analyze_seller_performance dfNaNRating).1.map
        (fun e => (e.1, e.2.avg_rating)) = [("a", some 4)] ∧
      (some (4 : ℚ) : Option ℚ) ≠ some ((4 + 0) / 2) := by
  constructor
  · simp +decide [analyze_seller_performance, fillMissing, fillRow, sellerKeys,
      sellerGroup, sentinelKey, sortLe, insertLe, mkMetrics, dfNaNRating,
      mkADf, mkARow, optStrLe]
    norm_num [round2, roundHalfEven]
  · norm_num

/-- C6 (amended).  Rows whose `username` *value* is null are grouped under
the sentinel "Unknown Seller" (with the full null-row count), but when the
`username` *column* is entirely absent the missing-column default is the
string `'Unknown'`, so all rows are grouped under "Unknown" instead. -/
theorem analyze_null_username_grouping (df : Df) (hne : df.rows ≠ []) :
    (df.hasUsername = true → (∃ r ∈ df.rows, r.username = none) →
      ∃ m, ("Unknown Seller", m) ∈ (analyze_seller_performance df).1 ∧
        m.product_count =
          ((df.rows.countP fun r => r.username == none : Nat) : Int)) ∧
    (df.hasUsername = false →
      (analyze_seller_performance df).1.map Prod.fst = ["Unknown"]) := by
  constructor
  · rintro hu ⟨r, hr, hrn⟩
    have hkey : (none : Option String) ∈ sellerKeys (fillMissing df).rows := by
      rw [sellerKeys, mem_sortLe, List.mem_dedup, fillMissing_username df hu]
      exact List.mem_map.mpr ⟨r, hr, hrn⟩
    refine ⟨mkMetrics (sellerGroup (fillMissing df).rows none),
      mem_analyze_of_key df hne none hkey, ?_⟩
    show ((sellerGroup (fillMissing df).rows none).length : Int) = _
    rw [sellerGroup, fillMissing, ← List.countP_eq_length_filter,
      List.countP_map]
    congr 1
    refine List.countP_congr fun a _ => ?_
    simp [fillRow, hu]
  · intro hu
    rw [analyze_seller_performance,
      if_neg (by simpa [List.isEmpty_iff] using hne)]
    have husr : (fillMissing df).rows.map (·.username) =
        df.rows.map fun _ => some "Unknown" := by
      rw [fillMissing, List.map_map]
      exact List.map_congr_left fun r _ => by simp [fillRow, hu]
    have hkeys : sellerKeys (fillMissing df).rows = [some "Unknown"] := by
      rw [sellerKeys, husr, dedup_map_const _ _ hne]
      rfl
    show List.map Prod.fst
      ((sellerKeys (fillMissing df).rows).map
        (fun k => (sentinelKey k, mkMetrics (sellerGroup (fillMissing df).rows k)))) =
      ["Unknown"]
    rw [hkeys]
    rfl

/-- C6 (witness for the amended theorem): a null and a named username row. -/
theorem analyze_null_username_grouping_example :
    ∃ m, ("Unknown Seller", m) ∈ (analyze_seller_performance dfNullName).1 ∧
      m.product_count =
        ((dfNullName.rows.countP fun r => r.username == none : Nat) : Int) :=
  (analyze_null_username_grouping dfNullName (by decide)).1 rfl
    ⟨mkARow none 1 1 "c" "t" none 1, by decide, rfl⟩

/-- C6 (counterexample).  With the `username` column entirely absent, every
row is grouped under the literal `'Unknown'` — not the claimed sentinel
"Unknown Seller". -/
theorem analyze_missing_username_column_key :
    (analyze_seller_performance dfNoUsername).1.map Prod.fst = ["Unknown"] ∧
      "Unknown" ≠ "Unknown Seller" := by
  constructor
  · simp +decide [analyze_seller_performance, fillMissing, fillRow, sellerKeys,
      sentinelKey, sortLe, insertLe, dfNoUsername, mkARow, optStrLe]
  · decide

/-- C10 (amended).  When every expected column is present,
`analyze_seller_performance` leaves the caller's frame unchanged (the
missing-column loop has nothing to add). -/
theorem analyze_input_untouched (df : Df)
    (h1 : df.hasUsername = true) (h2 : df.hasPrice = true)
    (h3 : df.hasRevenue = true) (h4 : df.hasCategory = true)
    (h5 : df.hasTitle = true) (h6 : df.hasRating = true)
    (h7 : df.hasQuantity = true) :
    (analyze_seller_performance df).2 = df := by
  rw [analyze_seller_performance]
  split
  · rfl
  · show fillMissing df = df
    obtain ⟨rows, u, p, rev, c, t, ra, q⟩ := df
    have h1a : u = true := h1
    have h2a : p = true := h2
    have h3a : rev = true := h3
    have h4a : c = true := h4
    have h5a : t = true := h5
    have h6a : ra = true := h6
    have h7a : q = true := h7
    subst h1a h2a h3a h4a h5a h6a h7a
    show Df.mk (rows.map _) true true true true true true true = _
    exact congrArg (fun rs => Df.mk rs true true true true true true true)
      (List.map_id rows)

/-- C10 (witness for the amended theorem): a full-column frame comes back
unchanged. -/
theorem analyze_input_untouched_example :
    (analyze_seller_performance dfNullName).2 = dfNullName :=
  analyze_input_untouched dfNullName rfl rfl rfl rfl rfl rfl rfl

/-- C10 (counterexample).  With the `category` column absent, the
missing-column loop executes `df['category'] = 'Unknown'` on the *caller's*
frame: after the call the input frame has gained the column, so the input is
not left unchanged. -/
theorem analyze_mutates_caller_frame :
    (analyze_seller_performance dfNoCategory).2 ≠ dfNoCategory := by
  intro h
  have h2 := congrArg Df.hasCategory h
  simp [analyze_seller_performance, fillMissing, fillRow, dfNoCategory, mkARow] at h2

/-- C7 (witness): with revenues 5, 7, 7 for one seller, the entry exists and
its top product is located by the first-maximum search. -/
theorem analyze_top_product_first_max_example :
    ∃ m b,
      (sentinelKey (some "a"), m) ∈ (analyze_seller_performance dfTopTie).1 ∧
      (sellerGroup (fillMissing dfTopTie).rows (some "a")).find?
        (fun r => decide (∀ y ∈ sellerGroup (fillMissing dfTopTie).rows (some "a"),
          y.revenue ≤ r.revenue)) = some b ∧
      m.top_product = b.title ∧
      ∀ y ∈ sellerGroup (fillMissing dfTopTie).rows (some "a"),
        y.revenue ≤ b.revenue :=
  analyze_top_product_first_max dfTopTie (some "a") (by decide) (by decide)

/-- Category keys are strictly ascending: sorted and duplicate-free. -/
theorem catKeys_pairwise_lt (rows : List AnalyzerRow) :
    (catKeys rows).Pairwise (fun a b => a < b) := by
  have hle : (sortLe (fun a b : String => decide (a ≤ b))
      ((rows.map (·.category)).dedup)).Pairwise
      (fun a b : String => (decide (a ≤ b)) = true) :=
    pairwise_sortLe
      (fun a b => by
        rcases le_total a b with h | h
        · exact Or.inl (by simpa using h)
        · exact Or.inr (by simpa using h))
      (fun a b c hab hbc => by
        simp only [decide_eq_true_iff] at hab hbc ⊢
        exact le_trans hab hbc)
      ((rows.map (·.category)).dedup)
  have hnd : (sortLe (fun a b : String => decide (a ≤ b))
      ((rows.map (·.category)).dedup)).Nodup :=
    ((sortLe_perm _ _).nodup_iff).mpr (List.nodup_dedup _)
  rw [catKeys]
  exact (hle.and hnd).imp fun h =>
    lt_of_le_of_ne (by simpa using h.1) h.2

/-- The groupby-sum series is strictly ascending in its category names. -/
theorem catSums_pairwise (rows : List AnalyzerRow) :
    (catSums rows).Pairwise (fun a b => a.1 < b.1) := by
  rw [catSums, List.pairwise_map]
  exact catKeys_pairwise_lt rows

/-- Every entry of the groupby-sum series is a category of the input paired
with its summed revenue. -/
theorem mem_catSums {rows : List AnalyzerRow} {p : String × ℚ}
    (hp : p ∈ catSums rows) :
    p.1 ∈ rows.map (·.category) ∧ p.2 = catRevenue rows p.1 := by
  obtain ⟨c, hc, hcp⟩ := List.mem_map.mp hp
  rw [catKeys, mem_sortLe, List.mem_dedup] at hc
  rw [← hcp]
  exact ⟨hc, rfl⟩

/-- C8 (amended).  `top_categories` has at most 3 entries, contains only
categories of the input, each paired with its rounded summed revenue, and is
ordered by summed revenue descending — but revenue ties are broken by
category name *descending* (`sort_values(ascending=False)` reverses a stable
ascending argsort, flipping the key-ascending tie order), not ascending. -/
theorem overall_top_categories_spec (df : Df) (s : Summary)
    (h : get_overall_summary df = Except.ok (some s)) :
    s.top_categories.length ≤ 3 ∧
    (∀ p ∈ s.top_categories, p.1 ∈ df.rows.map (·.category) ∧
      p.2 = round2 (catRevenue df.rows p.1)) ∧
    s.top_categories.Pairwise (fun a b =>
      catRevenue df.rows b.1 < catRevenue df.rows a.1 ∨
        (catRevenue df.rows a.1 = catRevenue df.rows b.1 ∧ b.1 < a.1)) := by
  have hs : s.top_categories = topCategories df.rows := by
    rw [get_overall_summary] at h
    split at h
    · simp at h
    · split at h
      · simp at h
      · split at h
        · simp at h
        · split at h
          · simp at h
          · rw [← Option.some.inj (Except.ok.inj h)]
  rw [hs]
  refine ⟨?_, ?_, ?_⟩
  · rw [topCategories, List.length_map, List.length_take]
    exact min_le_left 3 _
  · intro p hp
    rw [topCategories] at hp
    obtain ⟨q, hq, hpq⟩ := List.mem_map.mp hp
    have hq2 : q ∈ sortLe (fun a b => decide (a.2 ≤ b.2)) (catSums df.rows) :=
      List.mem_reverse.mp (List.take_subset _ _ hq)
    have hq3 := mem_catSums (mem_sortLe.mp hq2)
    rw [← hpq]
    exact ⟨hq3.1, by rw [hq3.2]⟩
  · have h1 := pairwise_lex_sortLe (catSums df.rows) (catSums_pairwise df.rows)
    have h2 : (sortLe (fun a b => decide (a.2 ≤ b.2))
        (catSums df.rows)).Pairwise (fun a b =>
          catRevenue df.rows a.1 < catRevenue df.rows b.1 ∨
            (catRevenue df.rows b.1 = catRevenue df.rows a.1 ∧ a.1 < b.1)) := by
      refine List.Pairwise.imp_of_mem ?_ h1
      intro a b ha hb hab
      rw [(mem_catSums (mem_sortLe.mp ha)).2,
        (mem_catSums (mem_sortLe.mp hb)).2] at hab
      rcases hab with hab | ⟨he, hn⟩
      · exact Or.inl hab
      · exact Or.inr ⟨he.symm, hn⟩
    have h3 : ((sortLe (fun a b => decide (a.2 ≤ b.2))
        (catSums df.rows)).reverse).Pairwise (fun a b =>
          catRevenue df.rows b.1 < catRevenue df.rows a.1 ∨
            (catRevenue df.rows a.1 = catRevenue df.rows b.1 ∧ b.1 < a.1)) := by
      rw [List.pairwise_reverse]
      exact h2
    have h4 := List.Pairwise.sublist (List.take_sublist 3 _) h3
    rw [topCategories, List.pairwise_map]
    exact h4

/-- C8 (witness for the amended theorem): a two-row single-category frame,
whose summary is evaluated concretely. -/
theorem overall_top_categories_spec_example :
    sumNullName.top_categories.length ≤ 3 ∧
    (∀ p ∈ sumNullName.top_categories,
      p.1 ∈ dfNullName.rows.map (·.category) ∧
        p.2 = round2 (catRevenue dfNullName.rows p.1)) ∧
    sumNullName.top_categories.Pairwise
      (fun a b => catRevenue dfNullName.rows b.1 < catRevenue dfNullName.rows a.1 ∨
        (catRevenue dfNullName.rows a.1 = catRevenue dfNullName.rows b.1 ∧
          b.1 < a.1)) :=
  overall_top_categories_spec dfNullName sumNullName (by
    simp +decide [get_overall_summary, topCategories, catSums, catKeys,
      catRevenue, sortLe, insertLe, dfNullName, sumNullName, mkADf, mkARow]
    norm_num [round2, roundHalfEven])

/-- C8 (counterexample).  Categories "a" and "b" carry equal summed revenue;
the code emits them as `[("b", 1), ("a", 1)]` — ties ordered by category name
*descending* — while the claim requires name-ascending tie-break, i.e.
`[("a", 1), ("b", 1)]`. -/
theorem top_categories_tie_not_ascending :
    (get_overall_summary dfCatTie).map (Option.map (·.top_categories)) =
      Except.ok (some [("b", 1), ("a", 1)]) ∧
    catRevenue dfCatTie.rows "a" = catRevenue dfCatTie.rows "b" ∧
    ("a" : String) < "b" := by
  refine ⟨?_, ?_, by rw [String.lt_iff_toList_lt]; simp [String.toList]; decide⟩
  · simp +decide [get_overall_summary, topCategories, catSums, catKeys,
      catRevenue, sortLe, insertLe, dfCatTie, mkADf, mkARow, Except.map]
    norm_num [round2, roundHalfEven]
  · simp +decide [catRevenue, dfCatTie, mkADf, mkARow]

end Analyzer

end OmniCart
